import Mathlib

/-!
Verification of the model-assembly and derivative-relevance engine of the
repository (an OpenMDAO-style framework).  The core modules
(`openmdao/core/group.py`, `openmdao/core/problem.py`) are not part of the
source tree here, only their tests and the profiling module are; the engine
is therefore modelled from the specification (`spec.md`), faithful to its
words, and checked against the concrete expectations recorded in
`openmdao/core/tests/test_problem.py`.  The profiling module
(`openmdao/devtools/profile.py`) is present and is embedded from its source.
-/

namespace Spec2Proof

/-! ## Directed graphs over variable pathnames (spec §3, SystemGraph)

Modelled from the spec: nodes are absolute variable pathnames (strings),
edges are ordered pairs.  Reachability is computed by saturation with
sufficient fuel; the inductive relation `Reaches` is the mathematical
reference definition (reflexive-transitive closure of the edge relation).
-/

structure DiGraph where
  edges : List (String × String)
deriving DecidableEq

/-- The reversed graph: every edge flipped. -/
def DiGraph.rev (g : DiGraph) : DiGraph :=
  ⟨g.edges.map (fun e => (e.2, e.1))⟩

/-- Reachability: `Reaches g a b` holds when there is a directed path from
`a` to `b` in `g` (including the empty path). -/
inductive Reaches (g : DiGraph) : String → String → Prop
  | refl (a : String) : Reaches g a a
  | tail {a b c : String} : Reaches g a b → (b, c) ∈ g.edges → Reaches g a c

theorem Reaches.single {g : DiGraph} {a b : String} (h : (a, b) ∈ g.edges) :
    Reaches g a b :=
  Reaches.tail (Reaches.refl a) h

theorem Reaches.trans {g : DiGraph} {a b c : String}
    (hab : Reaches g a b) (hbc : Reaches g b c) : Reaches g a c := by
  induction hbc with
  | refl => exact hab
  | tail _ hedge ih => exact Reaches.tail ih hedge

theorem Reaches.head {g : DiGraph} {a b c : String}
    (hedge : (a, b) ∈ g.edges) (hbc : Reaches g b c) : Reaches g a c :=
  Reaches.trans (Reaches.single hedge) hbc

theorem DiGraph.rev_rev (g : DiGraph) : g.rev.rev = g := by
  cases g with
  | mk es =>
    simp only [DiGraph.rev, List.map_map]
    congr 1
    exact List.map_id'' (fun e => rfl) es

theorem mem_rev_edges {g : DiGraph} {a b : String} :
    (a, b) ∈ g.rev.edges ↔ (b, a) ∈ g.edges := by
  constructor
  · intro h
    simp only [DiGraph.rev, List.mem_map] at h
    obtain ⟨e, he, heq⟩ := h
    cases heq
    exact he
  · intro h
    simp only [DiGraph.rev, List.mem_map]
    exact ⟨(b, a), h, rfl⟩

theorem reaches_rev_of_reaches {g : DiGraph} {a b : String}
    (h : Reaches g a b) : Reaches g.rev b a := by
  induction h with
  | refl => exact Reaches.refl _
  | tail _ hedge ih => exact Reaches.head (mem_rev_edges.mpr hedge) ih

theorem reaches_rev_iff {g : DiGraph} {a b : String} :
    Reaches g.rev a b ↔ Reaches g b a := by
  constructor
  · intro h
    have := reaches_rev_of_reaches h
    rwa [DiGraph.rev_rev] at this
  · exact reaches_rev_of_reaches

/-! ### Saturation-based reachability computation -/

/-- One saturation round: add the successor of every edge whose source is
already in the set. -/
def reachStep (g : DiGraph) (s : Finset String) : Finset String :=
  s ∪ ((g.edges.filter (fun e => e.1 ∈ s)).map Prod.snd).toFinset

/-- Run saturation rounds until a fixed point or the fuel runs out. -/
def reachAux (g : DiGraph) : Nat → Finset String → Finset String
  | 0, s => s
  | n + 1, s =>
    let s2 := reachStep g s
    if s2 = s then s else reachAux g n s2

/-- All nodes reachable in `g` from `a` (with fuel sufficient for any graph:
one more round than there are edges). -/
def reach (g : DiGraph) (a : String) : Finset String :=
  reachAux g (g.edges.length + 1) {a}

theorem mem_reachStep {g : DiGraph} {s : Finset String} {x : String} :
    x ∈ reachStep g s ↔ x ∈ s ∨ ∃ y, y ∈ s ∧ (y, x) ∈ g.edges := by
  simp only [reachStep, Finset.mem_union, List.mem_toFinset, List.mem_map,
    List.mem_filter, decide_eq_true_eq]
  constructor
  · rintro (h | ⟨e, ⟨he, hsrc⟩, rfl⟩)
    · exact Or.inl h
    · exact Or.inr ⟨e.1, hsrc, he⟩
  · rintro (h | ⟨y, hy, he⟩)
    · exact Or.inl h
    · exact Or.inr ⟨(y, x), ⟨he, hy⟩, rfl⟩

theorem subset_reachStep {g : DiGraph} {s : Finset String} :
    s ⊆ reachStep g s :=
  Finset.subset_union_left

/-- The universe bounding every saturation run started from `{a}`. -/
def reachUniv (g : DiGraph) (a : String) : Finset String :=
  insert a (g.edges.map Prod.snd).toFinset

theorem reachStep_subset_univ {g : DiGraph} {a : String} {s : Finset String}
    (hs : s ⊆ reachUniv g a) : reachStep g s ⊆ reachUniv g a := by
  intro x hx
  rcases mem_reachStep.mp hx with h | ⟨y, _, he⟩
  · exact hs h
  · simp only [reachUniv, Finset.mem_insert, List.mem_toFinset, List.mem_map]
    exact Or.inr ⟨(y, x), he, rfl⟩

theorem reachUniv_card_le (g : DiGraph) (a : String) :
    (reachUniv g a).card ≤ g.edges.length + 1 := by
  calc (reachUniv g a).card
      ≤ (g.edges.map Prod.snd).toFinset.card + 1 := Finset.card_insert_le _ _
    _ ≤ (g.edges.map Prod.snd).length + 1 :=
        Nat.add_le_add_right (g.edges.map Prod.snd).toFinset_card_le 1
    _ = g.edges.length + 1 := by rw [List.length_map]

theorem reachAux_of_fixed {g : DiGraph} {s : Finset String}
    (h : reachStep g s = s) : ∀ n, reachAux g n s = s := by
  intro n
  cases n with
  | zero => rfl
  | succ m => simp [reachAux, h]

theorem subset_reachAux {g : DiGraph} :
    ∀ (n : Nat) (s : Finset String), s ⊆ reachAux g n s := by
  intro n
  induction n with
  | zero => intro s; exact Finset.Subset.refl s
  | succ m ih =>
    intro s
    by_cases h : reachStep g s = s
    · simp [reachAux, h]
    · simp only [reachAux, if_neg h]
      exact Finset.Subset.trans subset_reachStep (ih (reachStep g s))

/-- Fuel sufficiency: with enough fuel (relative to the size of the ambient
universe) the saturation result is closed under one more round. -/
theorem reachAux_closed {g : DiGraph} {a : String} :
    ∀ (n : Nat) (s : Finset String), s ⊆ reachUniv g a →
      (reachUniv g a).card ≤ s.card + n →
      reachStep g (reachAux g n s) = reachAux g n s := by
  intro n
  induction n with
  | zero =>
    intro s hsub hcard
    have : s = reachUniv g a :=
      Finset.eq_of_subset_of_card_le hsub (by simpa using hcard)
    subst this
    simp only [reachAux]
    exact Finset.Subset.antisymm (reachStep_subset_univ (Finset.Subset.refl _))
      subset_reachStep
  | succ m ih =>
    intro s hsub hcard
    by_cases h : reachStep g s = s
    · simp only [reachAux, h, if_pos]
    · simp only [reachAux, if_neg h]
      have hss : s ⊂ reachStep g s :=
        HasSubset.Subset.ssubset_of_ne subset_reachStep (Ne.symm h)
      have hlt : s.card < (reachStep g s).card := Finset.card_lt_card hss
      exact ih (reachStep g s) (reachStep_subset_univ hsub)
        (by omega)

theorem reachStep_reach (g : DiGraph) (a : String) :
    reachStep g (reach g a) = reach g a := by
  have hsub : ({a} : Finset String) ⊆ reachUniv g a := by
    intro x hx
    rw [Finset.mem_singleton] at hx
    rw [hx]
    exact Finset.mem_insert_self a _
  have hcard : (reachUniv g a).card ≤ ({a} : Finset String).card + (g.edges.length + 1) := by
    have h1 := reachUniv_card_le g a
    have h2 : ({a} : Finset String).card = 1 := Finset.card_singleton a
    omega
  exact reachAux_closed (a := a) (g.edges.length + 1) {a} hsub hcard

theorem mem_self_reach (g : DiGraph) (a : String) : a ∈ reach g a :=
  subset_reachAux _ _ (Finset.mem_singleton_self a)

/-- Soundness of the saturation computation: everything it finds is
genuinely reachable from a member of the start set. -/
theorem reaches_of_mem_reachAux {g : DiGraph} :
    ∀ (n : Nat) (s : Finset String) (x : String), x ∈ reachAux g n s →
      ∃ y, y ∈ s ∧ Reaches g y x := by
  intro n
  induction n with
  | zero => intro s x hx; exact ⟨x, hx, Reaches.refl x⟩
  | succ m ih =>
    intro s x hx
    by_cases h : reachStep g s = s
    · simp only [reachAux, if_pos h] at hx
      exact ⟨x, hx, Reaches.refl x⟩
    · simp only [reachAux, if_neg h] at hx
      obtain ⟨y, hy, hyx⟩ := ih (reachStep g s) x hx
      rcases mem_reachStep.mp hy with hys | ⟨z, hz, hedge⟩
      · exact ⟨y, hys, hyx⟩
      · exact ⟨z, hz, Reaches.trans (Reaches.single hedge) hyx⟩

theorem reaches_of_mem_reach {g : DiGraph} {a x : String}
    (hx : x ∈ reach g a) : Reaches g a x := by
  obtain ⟨y, hy, hyx⟩ := reaches_of_mem_reachAux _ _ _ hx
  simp only [Finset.mem_singleton] at hy
  subst hy
  exact hyx

/-- Completeness of the saturation computation. -/
theorem mem_reach_of_reaches {g : DiGraph} {a b : String}
    (h : Reaches g a b) : b ∈ reach g a := by
  induction h with
  | refl => exact mem_self_reach g a
  | tail _ hedge ih =>
    have : _ ∈ reachStep g (reach g a) :=
      mem_reachStep.mpr (Or.inr ⟨_, ih, hedge⟩)
    rwa [reachStep_reach] at this

theorem mem_reach_iff {g : DiGraph} {a b : String} :
    b ∈ reach g a ↔ Reaches g a b :=
  ⟨reaches_of_mem_reach, mem_reach_of_reaches⟩

/-! ## Pathnames (spec §3)

A Variable's absolute pathname is `<component path>.<local name>`; a System
pathname is dot-delimited by ancestry, the root being the empty string.
-/

/-- Characters of the owning component's pathname: everything before the
last dot. -/
def ownerChars (cs : List Char) : List Char :=
  match (cs.reverse.dropWhile (fun c => c ≠ '.')) with
  | [] => []
  | _ :: tl => tl.reverse

/-- The pathname of the System owning a Variable (drop the local name). -/
def ownerPath (v : String) : String := ⟨ownerChars v.data⟩

/-- Emit every proper dot-delimited prefix of the scanned pathname. -/
def ancestorsAux : List Char → List Char → List String
  | [], _ => []
  | c :: rest, acc =>
    if c = '.' then String.mk acc.reverse :: ancestorsAux rest (c :: acc)
    else ancestorsAux rest (c :: acc)

/-- Every strict ancestor Group pathname of a System, up to and including
the root (empty pathname). -/
def sysAncestors (p : String) : List String :=
  "" :: ancestorsAux p.data []

/-- The Systems a relevant Variable contributes: its owner plus every
ancestor of the owner up to the root (spec §4.4 step 5). -/
def relSystemsOf (v : String) : Finset String :=
  insert (ownerPath v) (sysAncestors (ownerPath v)).toFinset

/-! ## The model and its SystemGraph (spec §3, §4.3)

Modelled from the spec: a Model holds the finalized Variable Registry
(absolute input and output pathnames) and the resolved Connection set.  The
SystemGraph has one edge per Connection (source output → target input) and,
per Component, one edge from each of its inputs to each of its outputs.
-/

structure Model where
  inputs : List String
  outputs : List String
  connections : List (String × String)

/-- Per-component input→output coupling edges. -/
def compEdges (m : Model) : List (String × String) :=
  m.inputs.flatMap (fun i =>
    (m.outputs.filter (fun o => ownerPath o = ownerPath i)).map (fun o => (i, o)))

/-- The variable-level SystemGraph of a model. -/
def sysGraph (m : Model) : DiGraph :=
  ⟨m.connections ++ compEdges m⟩

/-! ## Relevance Analyzer (spec §4.4)

Modelled from the spec: for a design variable `d`, `Fwd(d)` is forward
reachability from its source output node; for a response `r`, `Bwd(r)` is
reachability in the edge-reversed graph; the relevant node set of the pair
is the intersection, partitioned by kind; the relevant System set adds
owners and their ancestors plus the root.
-/

def fwdSet (m : Model) (d : String) : Finset String := reach (sysGraph m) d

def bwdSet (m : Model) (r : String) : Finset String := reach (sysGraph m).rev r

def relNodes (m : Model) (r d : String) : Finset String :=
  fwdSet m d ∩ bwdSet m r

def relInputs (m : Model) (r d : String) : Finset String :=
  (relNodes m r d).filter (fun v => v ∈ m.inputs)

def relOutputs (m : Model) (r d : String) : Finset String :=
  (relNodes m r d).filter (fun v => v ∈ m.outputs)

def relSystems (m : Model) (r d : String) : Finset String :=
  insert "" ((relNodes m r d).biUnion relSystemsOf)

/-- The aggregated forward-reachable set over a list of design variables,
used to compute the `"@all"` entry of the relevance mapping. -/
def fwdAll (m : Model) (dvs : List String) : Finset String :=
  dvs.foldr (fun d acc => fwdSet m d ∪ acc) ∅

def relNodesAll (m : Model) (dvs : List String) (r : String) : Finset String :=
  fwdAll m dvs ∩ bwdSet m r

def relInputsAll (m : Model) (dvs : List String) (r : String) : Finset String :=
  (relNodesAll m dvs r).filter (fun v => v ∈ m.inputs)

def relOutputsAll (m : Model) (dvs : List String) (r : String) : Finset String :=
  (relNodesAll m dvs r).filter (fun v => v ∈ m.outputs)

def relSystemsAll (m : Model) (dvs : List String) (r : String) : Finset String :=
  insert "" ((relNodesAll m dvs r).biUnion relSystemsOf)

/-! ## The concrete model of spec §8 / `TestProblem.test_relevance` -/

def testModel : Model where
  inputs :=
    ["G1.C1.a", "G1.C1.b", "G1.C2.a", "G1.C2.b",
     "C3.a", "C3.b", "C3.c", "C4.a", "C4.b",
     "G2.C5.a", "G2.C5.b", "G2.C5.c",
     "G2.C6.a", "G2.C6.b", "G2.C6.c",
     "G2.C7.a", "G2.C7.b", "C8.a", "C8.b", "Unconnected.x"]
  outputs :=
    ["indep1.x", "indep2.x",
     "G1.C1.x", "G1.C1.y", "G1.C1.z",
     "G1.C2.x", "G1.C2.y", "G1.C2.z",
     "C3.x", "C3.y", "C4.x", "C4.y",
     "G2.C5.x", "G2.C5.y", "G2.C6.x", "G2.C6.y",
     "G2.C7.x", "G2.C7.y", "C8.y", "Unconnected.y"]
  connections :=
    [("indep1.x", "G1.C1.a"),
     ("indep2.x", "G2.C6.a"),
     ("G1.C1.x", "G1.C2.b"),
     ("G1.C2.z", "C4.b"),
     ("G1.C1.z", "C3.b"),
     ("G1.C1.z", "C3.c"),
     ("G1.C1.z", "G2.C5.a"),
     ("C3.y", "G2.C5.b"),
     ("C3.x", "C4.a"),
     ("G2.C6.y", "G2.C7.b"),
     ("G2.C5.x", "C8.b"),
     ("G2.C7.x", "C8.a")]

set_option maxHeartbeats 4000000 in
set_option maxRecDepth 100000 in
/-- Claim C1: for the concrete model of spec §8, the relevance query for
response `C8.y` against design variable `indep1.x` returns exactly the
listed input, output and system sets, and likewise against `indep2.x`; the
root system pathname is the empty string. -/
theorem relevance_concrete_scenario :
    relInputs testModel "C8.y" "indep1.x" =
      {"C3.b", "C3.c", "C8.b", "G1.C1.a", "G2.C5.a", "G2.C5.b"} ∧
    relOutputs testModel "C8.y" "indep1.x" =
      {"C3.y", "C8.y", "G1.C1.z", "G2.C5.x", "indep1.x"} ∧
    relSystems testModel "C8.y" "indep1.x" =
      {"C3", "C8", "G1.C1", "G2.C5", "indep1", "G1", "G2", ""} ∧
    relInputs testModel "C8.y" "indep2.x" =
      {"C8.a", "G2.C6.a", "G2.C7.b"} ∧
    relOutputs testModel "C8.y" "indep2.x" =
      {"C8.y", "G2.C6.y", "G2.C7.x", "indep2.x"} ∧
    relSystems testModel "C8.y" "indep2.x" =
      {"C8", "G2.C6", "G2.C7", "indep2", "G2", ""} := by
  refine ⟨?_, ?_, ?_, ?_, ?_, ?_⟩ <;> decide

/-- Claim C8: a (response, design variable) pair whose graph has no directed
path from the design variable's source output node to the response's node
yields empty input and output sets, and a system set containing only the
root pathname. -/
theorem irrelevant_pair_empty (m : Model) (r d : String)
    (h : ¬ Reaches (sysGraph m) d r) :
    relInputs m r d = ∅ ∧ relOutputs m r d = ∅ ∧ relSystems m r d = {""} := by
  have hnodes : relNodes m r d = ∅ := by
    apply Finset.eq_empty_of_forall_not_mem
    intro x hx
    rw [relNodes, Finset.mem_inter] at hx
    obtain ⟨hf, hb⟩ := hx
    have h1 : Reaches (sysGraph m) d x := reaches_of_mem_reach hf
    have h2 : Reaches (sysGraph m) x r :=
      reaches_rev_iff.mp (reaches_of_mem_reach hb)
    exact h (Reaches.trans h1 h2)
  refine ⟨?_, ?_, ?_⟩ <;>
    simp [relInputs, relOutputs, relSystems, hnodes]

set_option maxHeartbeats 4000000 in
set_option maxRecDepth 100000 in
/-- Witness for C8 at the concrete model: `Unconnected.y` is unreachable
from `indep1.x`, and the relevance query returns empty sets and `{root}`. -/
theorem irrelevant_pair_empty_witness :
    (¬ Reaches (sysGraph testModel) "indep1.x" "Unconnected.y") ∧
    relInputs testModel "Unconnected.y" "indep1.x" = ∅ ∧
    relOutputs testModel "Unconnected.y" "indep1.x" = ∅ ∧
    relSystems testModel "Unconnected.y" "indep1.x" = {""} := by
  have hnot : "Unconnected.y" ∉ reach (sysGraph testModel) "indep1.x" := by
    decide
  have hnr : ¬ Reaches (sysGraph testModel) "indep1.x" "Unconnected.y" :=
    fun hr => hnot (mem_reach_of_reaches (g := sysGraph testModel)
      (a := "indep1.x") (b := "Unconnected.y") hr)
  exact ⟨hnr, irrelevant_pair_empty testModel "Unconnected.y" "indep1.x" hnr⟩

/-! ## The union law for the `"@all"` entry (spec §4.4 step 6) -/

theorem biUnion_union_distrib (s t : Finset String)
    (f : String → Finset String) :
    (s ∪ t).biUnion f = s.biUnion f ∪ t.biUnion f := by
  ext x
  simp only [Finset.mem_biUnion, Finset.mem_union]
  constructor
  · rintro ⟨y, hy | hy, hx⟩
    · exact Or.inl ⟨y, hy, hx⟩
    · exact Or.inr ⟨y, hy, hx⟩
  · rintro (⟨y, hy, hx⟩ | ⟨y, hy, hx⟩)
    · exact ⟨y, Or.inl hy, hx⟩
    · exact ⟨y, Or.inr hy, hx⟩

theorem insert_union_insert (a : String) (A B : Finset String) :
    insert a (A ∪ B) = insert a A ∪ insert a B := by
  rw [Finset.insert_union, Finset.union_insert, Finset.insert_idem]

theorem relNodesAll_eq_fold (m : Model) (r : String) :
    ∀ dvs : List String,
      relNodesAll m dvs r = dvs.foldr (fun d acc => relNodes m r d ∪ acc) ∅ := by
  intro dvs
  induction dvs with
  | nil => simp [relNodesAll, fwdAll]
  | cons d tl ih =>
    rw [List.foldr_cons, ← ih]
    show fwdAll m (d :: tl) ∩ bwdSet m r = relNodes m r d ∪ relNodesAll m tl r
    have hcons : fwdAll m (d :: tl) = fwdSet m d ∪ fwdAll m tl := rfl
    rw [hcons, Finset.union_inter_distrib_right]
    rfl

theorem relNodesAll_cons (m : Model) (r d : String) (tl : List String) :
    relNodesAll m (d :: tl) r = relNodes m r d ∪ relNodesAll m tl r := by
  rw [relNodesAll_eq_fold, relNodesAll_eq_fold, List.foldr_cons]

theorem relInputsAll_eq_fold (m : Model) (r : String) :
    ∀ dvs : List String,
      relInputsAll m dvs r = dvs.foldr (fun d acc => relInputs m r d ∪ acc) ∅ := by
  intro dvs
  induction dvs with
  | nil => simp [relInputsAll, relNodesAll, fwdAll]
  | cons d tl ih =>
    rw [relInputsAll, relNodesAll_cons, Finset.filter_union, List.foldr_cons, ← ih]
    rfl

theorem relOutputsAll_eq_fold (m : Model) (r : String) :
    ∀ dvs : List String,
      relOutputsAll m dvs r = dvs.foldr (fun d acc => relOutputs m r d ∪ acc) ∅ := by
  intro dvs
  induction dvs with
  | nil => simp [relOutputsAll, relNodesAll, fwdAll]
  | cons d tl ih =>
    rw [relOutputsAll, relNodesAll_cons, Finset.filter_union, List.foldr_cons, ← ih]
    rfl

theorem relSystemsAll_eq_fold (m : Model) (r : String) :
    ∀ dvs : List String, dvs ≠ [] →
      relSystemsAll m dvs r = dvs.foldr (fun d acc => relSystems m r d ∪ acc) ∅ := by
  intro dvs
  induction dvs with
  | nil => intro h; exact absurd rfl h
  | cons d tl ih =>
    intro _
    cases tl with
    | nil =>
      show insert "" ((relNodesAll m [d] r).biUnion relSystemsOf) = _
      rw [relNodesAll_cons]
      have hnil : relNodesAll m [] r = ∅ := by
        simp [relNodesAll, fwdAll]
      rw [hnil, Finset.union_empty, List.foldr_cons, List.foldr_nil,
        Finset.union_empty]
      rfl
    | cons d2 tl2 =>
      have h2 := ih (List.cons_ne_nil d2 tl2)
      show insert "" ((relNodesAll m (d :: d2 :: tl2) r).biUnion relSystemsOf) = _
      rw [relNodesAll_cons, biUnion_union_distrib, insert_union_insert,
        List.foldr_cons, ← h2]
      rfl

/-- Claim C2: the `"@all"` entry of the relevance mapping for a response is
the union, over every declared design variable, of the per-pair relevance
sets: input set, output set, and system set componentwise. -/
theorem all_entry_is_union (m : Model) (dvs : List String) (r : String)
    (hne : dvs ≠ []) :
    relInputsAll m dvs r =
      dvs.foldr (fun d acc => relInputs m r d ∪ acc) ∅ ∧
    relOutputsAll m dvs r =
      dvs.foldr (fun d acc => relOutputs m r d ∪ acc) ∅ ∧
    relSystemsAll m dvs r =
      dvs.foldr (fun d acc => relSystems m r d ∪ acc) ∅ :=
  ⟨relInputsAll_eq_fold m r dvs, relOutputsAll_eq_fold m r dvs,
    relSystemsAll_eq_fold m r dvs hne⟩

/-- Witness for C2 at the concrete model of spec §8 with its two declared
design variables and the response `C8.y`. -/
theorem all_entry_is_union_witness :
    (["indep1.x", "indep2.x"] : List String) ≠ [] ∧
    relInputsAll testModel ["indep1.x", "indep2.x"] "C8.y" =
      relInputs testModel "C8.y" "indep1.x" ∪
        (relInputs testModel "C8.y" "indep2.x" ∪ ∅) ∧
    relOutputsAll testModel ["indep1.x", "indep2.x"] "C8.y" =
      relOutputs testModel "C8.y" "indep1.x" ∪
        (relOutputs testModel "C8.y" "indep2.x" ∪ ∅) ∧
    relSystemsAll testModel ["indep1.x", "indep2.x"] "C8.y" =
      relSystems testModel "C8.y" "indep1.x" ∪
        (relSystems testModel "C8.y" "indep2.x" ∪ ∅) :=
  ⟨List.cons_ne_nil _ _,
    all_entry_is_union testModel ["indep1.x", "indep2.x"] "C8.y"
      (List.cons_ne_nil _ _)⟩

/-! ## Two-Phase Assembler (spec §4.2)

Modelled from the spec: `setup()` runs a pre-order build pass (a System's
build hook, then its children's in declaration order), then a post-order
configure pass (children's override hooks before the parent's).  Solver
assignments are recorded as (target pathname, solver identity) pairs; the
solver visible on a System is the last one assigned to its pathname.
-/

/-- A solver assignment made by a hook: target System pathname and the
assigned solver, represented by an opaque numeric identity. -/
abbrev Assign := String × Nat

/-- A System tree node: the solver assignments made by its build hook, the
ones made by its override (configure) hook, and its children in
declaration order. -/
inductive STree where
  | node (buildHook : List Assign) (overrideHook : List Assign)
      (children : List STree)

mutual

/-- Pre-order build pass: the System's own build hook runs first, then each
child's, in declaration order. -/
def buildSeq : STree → List Assign
  | .node b _ cs => b ++ buildSeqL cs

def buildSeqL : List STree → List Assign
  | [] => []
  | t :: ts => buildSeq t ++ buildSeqL ts

end

mutual

/-- Post-order configure pass: children's override hooks run before the
parent's. -/
def configSeq : STree → List Assign
  | .node _ o cs => configSeqL cs ++ o

def configSeqL : List STree → List Assign
  | [] => []
  | t :: ts => configSeq t ++ configSeqL ts

end

/-- The assignment sequence a top-level `setup()` produces: the whole build
pass, then the whole configure pass. -/
def assembleSeq (t : STree) : List Assign :=
  buildSeq t ++ configSeq t

/-- The solver visible on a System after a sequence of assignments: the
last assignment to its pathname wins. -/
def solverOf (assigns : List Assign) (p : String) : Option Nat :=
  (assigns.reverse.find? (fun a => a.1 = p)).map Prod.snd

theorem solverOf_snoc_self (l : List Assign) (p : String) (s : Nat) :
    solverOf (l ++ [(p, s)]) p = some s := by
  simp [solverOf, List.reverse_append]

set_option maxHeartbeats 1000000 in
/-- Claim C3: for a model `Super → Sub → leaf` where Sub's build hook and
Sub's override hook each assign a solver to Sub, and Super's override hook
assigns a different solver to Sub, after full `setup()` the solver visible
on Sub is the one assigned by Super's override hook. -/
theorem configure_precedence (subPath : String) (s1 s2 s3 : Nat)
    (h31 : s3 ≠ s1) (h32 : s3 ≠ s2) (leafCs : List STree)
    (hb : ∀ a ∈ buildSeqL leafCs, a.1 ≠ subPath)
    (hc : ∀ a ∈ configSeqL leafCs, a.1 ≠ subPath) :
    solverOf (assembleSeq (STree.node [] [(subPath, s3)]
      [STree.node [(subPath, s1)] [(subPath, s2)] leafCs])) subPath
      = some s3 := by
  have hl : assembleSeq (STree.node [] [(subPath, s3)]
      [STree.node [(subPath, s1)] [(subPath, s2)] leafCs])
      = ((subPath, s1) :: (buildSeqL leafCs ++ configSeqL leafCs
          ++ [(subPath, s2)])) ++ [(subPath, s3)] := by
    simp [assembleSeq, buildSeq, buildSeqL, configSeq, configSeqL]
  rw [hl, solverOf_snoc_self]

/-- Witness for C3: a two-level model with a single leaf component and
three distinct solvers. -/
theorem configure_precedence_witness :
    ((3 : Nat) ≠ 1 ∧ (3 : Nat) ≠ 2 ∧
      (∀ a ∈ buildSeqL [STree.node [] [] []], a.1 ≠ "sub") ∧
      (∀ a ∈ configSeqL [STree.node [] [] []], a.1 ≠ "sub")) ∧
    solverOf (assembleSeq (STree.node [] [("sub", 3)]
      [STree.node [("sub", 1)] [("sub", 2)] [STree.node [] [] []]])) "sub"
      = some 3 :=
  ⟨⟨by decide, by decide, by simp [buildSeqL, buildSeq],
      by simp [configSeqL, configSeq]⟩,
    configure_precedence "sub" 1 2 3 (by decide) (by decide)
      [STree.node [] [] []] (by simp [buildSeqL, buildSeq])
      (by simp [configSeqL, configSeq])⟩

/-- Claim C4: after `setup()` completes, a direct solver assignment on a
subsystem handle happens strictly after every hook assignment of the
two-phase pass, so the directly assigned solver is the one subsequently
visible on that subsystem, whatever the hooks assigned. -/
theorem post_setup_direct_assignment_wins (t : STree) (p : String) (s : Nat) :
    solverOf (assembleSeq t ++ [(p, s)]) p = some s :=
  solverOf_snoc_self (assembleSeq t) p s

/-! ## Error taxonomy (spec §7) and Derivative Mode Selector (spec §4.5) -/

inductive CoreError where
  | configurationError (msg : String)
  | orderingError (msg : String)
deriving DecidableEq

inductive Mode where
  | fwd
  | rev
deriving DecidableEq

def modeToken : Mode → String
  | .fwd => "fwd"
  | .rev => "rev"

/-- Modelled from the spec: the advisory message for an inefficient mode
choice; it names the chosen mode and both counts (wording taken from
`test_setup_bad_mode_direction_fwd`/`_rev`). -/
def advisoryMsg (m : Mode) (nd nr : Nat) : String :=
  "Inefficient choice of derivative mode.  You chose \x27" ++ modeToken m ++
    "\x27 for a problem with " ++ toString nd ++
    " design variables and " ++ toString nr ++
    " response variables (objectives and constraints)."

/-- Modelled from the spec: the Derivative Mode Selector's advisories for a
chosen mode given `nd` design variables and `nr` responses.  Warn exactly
when the more expensive direction was chosen; advisories are returned as
data (never raised), so they cannot block execution. -/
def modeAdvisories (m : Mode) (nd nr : Nat) : List String :=
  match m with
  | .fwd => if nr < nd then [advisoryMsg m nd nr] else []
  | .rev => if nd < nr then [advisoryMsg m nd nr] else []

/-- Claim C5: exactly one advisory naming both counts and the chosen mode
is emitted when the more expensive direction was chosen (forward with more
design variables than responses, e.g. 99 vs 10; reverse with more responses
than design variables, e.g. 10 vs 20), and none when forward is chosen with
design-count at most response-count. -/
theorem mode_advisory_thresholds :
    (∀ nd nr : Nat, nr < nd →
      modeAdvisories Mode.fwd nd nr = [advisoryMsg Mode.fwd nd nr]) ∧
    (∀ nd nr : Nat, nd < nr →
      modeAdvisories Mode.rev nd nr = [advisoryMsg Mode.rev nd nr]) ∧
    (∀ nd nr : Nat, nd ≤ nr → modeAdvisories Mode.fwd nd nr = []) ∧
    modeAdvisories Mode.fwd 99 10 =
      ["Inefficient choice of derivative mode.  You chose \x27fwd\x27 for a problem with 99 design variables and 10 response variables (objectives and constraints)."] ∧
    modeAdvisories Mode.rev 10 20 =
      ["Inefficient choice of derivative mode.  You chose \x27rev\x27 for a problem with 10 design variables and 20 response variables (objectives and constraints)."] := by
  refine ⟨?_, ?_, ?_, ?_, ?_⟩
  · intro nd nr h
    simp [modeAdvisories, h]
  · intro nd nr h
    simp [modeAdvisories, h]
  · intro nd nr h
    simp [modeAdvisories, Nat.not_lt.mpr h]
  · decide
  · decide

/-- Witness for C5 at the concrete counts of the tests. -/
theorem mode_advisory_thresholds_witness :
    ((10 : Nat) < 99 ∧ modeAdvisories Mode.fwd 99 10 =
      [advisoryMsg Mode.fwd 99 10]) ∧
    ((10 : Nat) < 20 ∧ modeAdvisories Mode.rev 10 20 =
      [advisoryMsg Mode.rev 10 20]) ∧
    ((5 : Nat) ≤ 7 ∧ modeAdvisories Mode.fwd 5 7 = []) :=
  ⟨⟨by decide, mode_advisory_thresholds.1 99 10 (by decide)⟩,
    ⟨by decide, mode_advisory_thresholds.2.1 10 20 (by decide)⟩,
    ⟨by decide, mode_advisory_thresholds.2.2.1 5 7 (by decide)⟩⟩

/-- Modelled from the spec: parsing a requested derivative mode token; an
invalid token fails fast with a `ConfigurationError` naming the two only
legal values (wording from `test_setup_bad_mode`). -/
def parseMode (tok : String) : Except CoreError Mode :=
  if tok = "fwd" then .ok Mode.fwd
  else if tok = "rev" then .ok Mode.rev
  else .error (.configurationError
    ("Unsupported mode: \x27" ++ tok ++
      "\x27. Use either \x27fwd\x27 or \x27rev\x27."))

/-- Claim C6: every mode token other than the two legal values fails fast
with a `ConfigurationError` whose message names the two only legal values
(`fwd` and `rev`). -/
theorem invalid_mode_fails_fast (tok : String)
    (h1 : tok ≠ "fwd") (h2 : tok ≠ "rev") :
    parseMode tok = Except.error (CoreError.configurationError
      ("Unsupported mode: \x27" ++ tok ++
        "\x27. Use either \x27fwd\x27 or \x27rev\x27.")) := by
  simp [parseMode, h1, h2]

/-- Witness for C6 at the test's token `junk`. -/
theorem invalid_mode_fails_fast_witness :
    ("junk" ≠ "fwd" ∧ "junk" ≠ "rev") ∧
    parseMode "junk" = Except.error (CoreError.configurationError
      ("Unsupported mode: \x27" ++ "junk" ++
        "\x27. Use either \x27fwd\x27 or \x27rev\x27.")) :=
  ⟨⟨by decide, by decide⟩,
    invalid_mode_fails_fast "junk" (by decide) (by decide)⟩

/-! ## Execution before setup (spec §4.2 failure modes) -/

/-- The lifecycle state an execution operation checks: whether the
top-level `setup()` has completed, and how many executions have run. -/
structure ProblemState where
  setupDone : Bool
  runCount : Nat
deriving DecidableEq

/-- A freshly constructed problem: `setup()` has not completed and nothing
has run. -/
def newProblem : ProblemState := ⟨false, 0⟩

/-- Modelled from the spec: `run_model` fails with an `OrderingError`
naming the violated precondition when invoked before `setup()` completes;
only on success does an execution happen (the run counter advances).
Wording from `test_run_before_setup`. -/
def runModelOp (p : ProblemState) : Except CoreError ProblemState :=
  if p.setupDone then .ok { p with runCount := p.runCount + 1 }
  else .error (.orderingError
    "The `setup` method must be called before `run_model`.")

/-- Modelled from the spec: `run_driver`, analogous to `run_model`. -/
def runDriverOp (p : ProblemState) : Except CoreError ProblemState :=
  if p.setupDone then .ok { p with runCount := p.runCount + 1 }
  else .error (.orderingError
    "The `setup` method must be called before `run_driver`.")

/-- Claim C7: on every model on which `setup()` has not completed, both
execution operations fail with an `OrderingError` naming the violated
precondition, and no execution happens (an error is returned instead of a
successor state, so the run counter never advances). -/
theorem run_before_setup_fails (p : ProblemState)
    (h : p.setupDone = false) :
    runModelOp p = Except.error (CoreError.orderingError
      "The `setup` method must be called before `run_model`.") ∧
    runDriverOp p = Except.error (CoreError.orderingError
      "The `setup` method must be called before `run_driver`.") := by
  constructor
  · simp [runModelOp, h]
  · simp [runDriverOp, h]

/-- Witness for C7 at a freshly constructed problem. -/
theorem run_before_setup_fails_witness :
    newProblem.setupDone = false ∧
    runModelOp newProblem = Except.error (CoreError.orderingError
      "The `setup` method must be called before `run_model`.") ∧
    runDriverOp newProblem = Except.error (CoreError.orderingError
      "The `setup` method must be called before `run_driver`.") :=
  ⟨rfl, run_before_setup_fails newProblem rfl⟩

/-! ## Total-derivative return formats (spec §4.6)

Modelled from the spec: `compute_totals` assembles the partial derivatives
(an opaque per-pair value `J r d`) into either a flat pair-keyed mapping or
a nested per-response mapping; the two differ only in addressing.
-/

/-- The flat pair-keyed return format. -/
def totalsFlat {α : Type} (J : String → String → α) (of wrt : List String) :
    List ((String × String) × α) :=
  of.flatMap (fun r => wrt.map (fun d => ((r, d), J r d)))

/-- The nested per-response (`return_format='dict'`) format. -/
def totalsDict {α : Type} (J : String → String → α) (of wrt : List String) :
    List (String × List (String × α)) :=
  of.map (fun r => (r, wrt.map (fun d => (d, J r d))))

/-- Addressing the flat format by a (response, design variable) pair. -/
def lookupFlat {α : Type} (t : List ((String × String) × α))
    (r d : String) : Option α :=
  (t.find? (fun e => e.1 = (r, d))).map Prod.snd

/-- Addressing the nested format by response, then design variable. -/
def lookupDict {α : Type} (t : List (String × List (String × α)))
    (r d : String) : Option α :=
  match t.find? (fun e => e.1 = r) with
  | some e => (e.2.find? (fun q => q.1 = d)).map Prod.snd
  | none => none

theorem totalsFlat_cons {α : Type} (J : String → String → α)
    (r0 : String) (of wrt : List String) :
    totalsFlat J (r0 :: of) wrt =
      (wrt.map (fun dv => ((r0, dv), J r0 dv))) ++ totalsFlat J of wrt := by
  simp [totalsFlat]

theorem totalsDict_cons {α : Type} (J : String → String → α)
    (r0 : String) (of wrt : List String) :
    totalsDict J (r0 :: of) wrt =
      (r0, wrt.map (fun dv => (dv, J r0 dv))) :: totalsDict J of wrt := by
  simp [totalsDict]

theorem lookupDict_cons_self {α : Type} (r0 d : String)
    (row : List (String × α)) (rest : List (String × List (String × α))) :
    lookupDict ((r0, row) :: rest) r0 d =
      (row.find? (fun q => q.1 = d)).map Prod.snd := by
  have hfind : (((r0, row) :: rest).find? (fun e => e.1 = r0))
      = some (r0, row) := by
    rw [List.find?_cons]
    have hp : (decide ((r0, row).1 = r0)) = true := by simp
    rw [hp]
  simp only [lookupDict, hfind]

theorem lookupDict_cons_ne {α : Type} (r0 r d : String) (hr : r0 ≠ r)
    (row : List (String × α)) (rest : List (String × List (String × α))) :
    lookupDict ((r0, row) :: rest) r d = lookupDict rest r d := by
  have hfind : (((r0, row) :: rest).find? (fun e => e.1 = r))
      = rest.find? (fun e => e.1 = r) := by
    rw [List.find?_cons]
    have hp : (decide ((r0, row).1 = r)) = false := by
      apply decide_eq_false
      exact hr
    rw [hp]
  simp only [lookupDict, hfind]

theorem flat_row_eq_dict_row {α : Type} (J : String → String → α)
    (r d : String) (wrt : List String) :
    ((wrt.map (fun dv => ((r, dv), J r dv))).find?
        (fun e => e.1 = (r, d))).map Prod.snd
      = ((wrt.map (fun dv => (dv, J r dv))).find?
        (fun q => q.1 = d)).map Prod.snd := by
  induction wrt with
  | nil => rfl
  | cons d0 tl ih =>
    by_cases h : d0 = d
    · subst h
      simp [List.find?]
    · simp only [List.map_cons, List.find?_cons]
      have h1 : (decide ((r, d0) = (r, d))) = false := by
        apply decide_eq_false
        intro hc
        exact h (congrArg Prod.snd hc)
      have h2 : (decide (d0 = d)) = false := decide_eq_false h
      rw [h1, h2]
      exact ih

theorem flat_row_skip {α : Type} (J : String → String → α)
    (r0 r d : String) (hr : r ≠ r0) (wrt : List String) :
    (wrt.map (fun dv => ((r0, dv), J r0 dv))).find?
      (fun e => e.1 = (r, d)) = none := by
  induction wrt with
  | nil => rfl
  | cons d0 tl ih =>
    simp only [List.map_cons, List.find?_cons]
    have h1 : (decide ((r0, d0) = (r, d))) = false := by
      apply decide_eq_false
      intro hc
      exact hr (congrArg Prod.fst hc).symm
    rw [h1]
    exact ih

theorem row_find_mem {α : Type} (J : String → String → α)
    (r d : String) : ∀ wrt : List String,
    (wrt.map (fun dv => (dv, J r dv))).find? (fun q => q.1 = d) = none →
      d ∉ wrt := by
  intro wrt
  induction wrt with
  | nil =>
    intro _ hd
    simp at hd
  | cons d0 tl ih =>
    intro hnone hd
    by_cases h0 : d0 = d
    · rw [List.map_cons, List.find?_cons, decide_eq_true h0] at hnone
      simp at hnone
    · rw [List.map_cons, List.find?_cons, decide_eq_false h0] at hnone
      rcases List.mem_cons.mp hd with h | h
      · exact h0 h.symm
      · exact ih hnone h

theorem flat_row_skip_dv {α : Type} (J : String → String → α)
    (r0 r d : String) : ∀ wrt : List String, d ∉ wrt →
    (wrt.map (fun dv => ((r0, dv), J r0 dv))).find?
      (fun e => e.1 = (r, d)) = none := by
  intro wrt
  induction wrt with
  | nil => intro _; rfl
  | cons d0 tl ih =>
    intro hd
    have hd1 : d ≠ d0 := fun h => hd (by rw [h]; exact List.mem_cons_self d0 tl)
    have hd2 : d ∉ tl := fun h => hd (List.mem_cons_of_mem d0 h)
    simp only [List.map_cons, List.find?_cons]
    have h1 : (decide ((r0, d0) = (r, d))) = false := by
      apply decide_eq_false
      intro hc
      exact hd1 (congrArg Prod.snd hc).symm
    rw [h1]
    exact ih hd2

theorem flat_find_none_of_not_mem {α : Type} (J : String → String → α)
    (r d : String) (wrt : List String) (hd : d ∉ wrt) :
    ∀ of : List String,
      (totalsFlat J of wrt).find? (fun e => e.1 = (r, d)) = none := by
  intro of
  induction of with
  | nil => rfl
  | cons r0 of' ih =>
    rw [totalsFlat_cons, List.find?_append, flat_row_skip_dv J r0 r d wrt hd,
      ih, Option.or_self]

set_option maxHeartbeats 1000000 in
/-- Claim C9: for fixed `of` responses and `wrt` design variables on an
unchanged model, the flat pair-keyed format and the nested per-response
format hold identical derivative contents: addressing the flat result by
(r, d) equals addressing the nested result by [r][d], for every pair. -/
theorem totals_formats_agree {α : Type} (J : String → String → α)
    (of wrt : List String) (r d : String) :
    lookupFlat (totalsFlat J of wrt) r d
      = lookupDict (totalsDict J of wrt) r d := by
  induction of with
  | nil => rfl
  | cons r0 of' ih =>
    rw [totalsFlat_cons, totalsDict_cons, lookupFlat, List.find?_append]
    by_cases h : r0 = r
    · subst h
      rw [lookupDict_cons_self]
      cases hrow : (wrt.map (fun dv => (dv, J r0 dv))).find?
          (fun q => q.1 = d) with
      | some e =>
        have hbr := flat_row_eq_dict_row J r0 d wrt
        rw [hrow] at hbr
        cases hblk : (wrt.map (fun dv => ((r0, dv), J r0 dv))).find?
            (fun q => q.1 = (r0, d)) with
        | some b =>
          rw [hblk] at hbr
          exact hbr
        | none =>
          rw [hblk] at hbr
          simp at hbr
      | none =>
        have hd : d ∉ wrt := row_find_mem J r0 d wrt hrow
        have hbr := flat_row_eq_dict_row J r0 d wrt
        rw [hrow] at hbr
        have hblk : (wrt.map (fun dv => ((r0, dv), J r0 dv))).find?
            (fun q => q.1 = (r0, d)) = none := by
          cases hb : (wrt.map (fun dv => ((r0, dv), J r0 dv))).find?
              (fun q => q.1 = (r0, d)) with
          | some b => rw [hb] at hbr; simp at hbr
          | none => rfl
        rw [hblk, flat_find_none_of_not_mem J r0 d wrt hd of', Option.or_self]
        rfl
    · rw [flat_row_skip J r0 r d (fun hc => h hc.symm) wrt, Option.none_or,
        lookupDict_cons_ne r0 r d h]
      exact ih

/-! ## Profiling setup (`openmdao/devtools/profile.py`)

Embedded from the source, which is present in the repository.  The module
globals `_profile_setup`, `_profile_prefix`, `_profile_methods` and
`_profile_out` form the profiling configuration; `setup` checks
`_profile_setup` first and raises `RuntimeError("profiling is already set
up.")` before touching anything, otherwise it computes the prefix path,
flips the flag, stores the method table and opens `<prefix>.<rank>`.
-/

/-- The module-global profiling configuration of `profile.py`. -/
structure ProfileState where
  isSetup : Bool
  profPref : Option String
  profMethods : Option (List (String × List String))
  profOut : Option String
deriving DecidableEq

/-- The module-level initial values of the profiling globals. -/
def profileInit : ProfileState :=
  { isSetup := false, profPref := none, profMethods := none, profOut := none }

/-- The default profiled-method table: `{"*": (System, Jacobian, Matrix,
Vector, Solver, Driver, Problem)}`. -/
def defaultMethods : List (String × List String) :=
  [("*", ["System", "Jacobian", "Matrix", "Vector", "Solver", "Driver",
    "Problem"])]

/-- Path joining (`os.path.join`) for the cases `profile.setup` uses. -/
def joinPath (a b : String) : String := a ++ "/" ++ b

/-- Embedding of `profile.setup(prefix, methods, prof_dir)`.  The working
directory (for `os.getcwd()`), the absolute form of `prof_dir` and the MPI
rank are passed in as environment values; opening the raw output file is
recorded as the opened filename. -/
def profileSetup (st : ProfileState) (pre : String)
    (methods : Option (List (String × List String)))
    (profDir : Option String) (cwd : String) (rank : Nat) :
    Except String ProfileState :=
  if st.isSetup then Except.error "profiling is already set up."
  else
    let pp := match profDir with
      | none => joinPath cwd pre
      | some dir => joinPath dir pre
    Except.ok
      { isSetup := true
        profPref := some pp
        profMethods := some (methods.getD defaultMethods)
        profOut := some (pp ++ "." ++ toString rank) }

/-- A `setup` call at the Python level: when it raises, the module globals
keep their previous values; the raised message is returned alongside. -/
def profileSetupRun (st : ProfileState) (pre : String)
    (methods : Option (List (String × List String)))
    (profDir : Option String) (cwd : String) (rank : Nat) :
    ProfileState × Option String :=
  match profileSetup st pre methods profDir cwd rank with
  | Except.ok st2 => (st2, none)
  | Except.error e => (st, some e)

/-- Claim C10: once `setup()` has completed successfully, every subsequent
call to `setup()` (with any arguments) raises `RuntimeError` with the
message `profiling is already set up.` and leaves the existing profiling
configuration (prefix, method table, open output file) unchanged. -/
theorem profile_setup_guard (st0 st : ProfileState) (p0 : String)
    (m0 : Option (List (String × List String))) (d0 : Option String)
    (c0 : String) (k0 : Nat)
    (hok : profileSetup st0 p0 m0 d0 c0 k0 = Except.ok st)
    (p1 : String) (m1 : Option (List (String × List String)))
    (d1 : Option String) (c1 : String) (k1 : Nat) :
    profileSetupRun st p1 m1 d1 c1 k1 =
      (st, some "profiling is already set up.") := by
  have hs : st.isSetup = true := by
    simp only [profileSetup] at hok
    by_cases hst : st0.isSetup
    · rw [if_pos hst] at hok
      simp at hok
    · rw [if_neg hst] at hok
      injection hok with h2
      rw [← h2]
  simp only [profileSetupRun, profileSetup, if_pos hs]

/-- The profiling configuration after a first successful `setup` from the
initial state with `prefix="prof_raw"`, no method table, no `prof_dir`,
working directory `/work` and rank 0. -/
def profileAfterFirst : ProfileState :=
  { isSetup := true
    profPref := some "/work/prof_raw"
    profMethods := some defaultMethods
    profOut := some "/work/prof_raw.0" }

/-- Witness for C10: a first successful `setup` from the initial state,
then a second call with different arguments raising and leaving the state
unchanged. -/
theorem profile_setup_guard_witness :
    profileSetup profileInit "prof_raw" none none "/work" 0 =
      Except.ok profileAfterFirst ∧
    profileSetupRun profileAfterFirst "other" (some [("solve", ["Solver"])])
      (some "/tmp") "/elsewhere" 3 =
      (profileAfterFirst, some "profiling is already set up.") :=
  ⟨rfl,
    profile_setup_guard profileInit profileAfterFirst
      "prof_raw" none none "/work" 0 rfl
      "other" (some [("solve", ["Solver"])]) (some "/tmp") "/elsewhere" 3⟩

end Spec2Proof
